import Mathlib

/-
Verification of the transformation_algebra type engine specification.

The repository ships the tests of its type engine (tests/test_type.py,
tests/test_lang.py) together with the expression layer (expr.py) and the
flow layer (flow.py); the engine itself (type.py, lang.py) is not among
the sources.  Definitions below that embed the engine are therefore
modelled from the natural-language specification, as their doc comments
state; expr.py and flow.py are embedded from their source directly.
-/

set_option autoImplicit false

/-- Modelled from the spec: type.py is absent from the sources.  Per the
data model, a type operator has an identity (a natural number here), at
most one direct supertype, and the supertype graph is acyclic; the
`rank` field together with `rank_decreases` witnesses acyclicity.  The
optional synthetic `Top` operator, when enabled, is the maximum element. -/
structure Catalogue where
  supertype : Nat → Option Nat
  rank : Nat → Nat
  rank_decreases : ∀ o p, supertype o = some p → rank p < rank o
  top : Option Nat

/-- Walks the supertype chain of an operator, with explicit fuel. -/
def chainAux (C : Catalogue) : Nat → Nat → List Nat
  | 0, o => [o]
  | n + 1, o =>
    o :: (match C.supertype o with
          | none => []
          | some p => chainAux C n p)

/-- The reflexive supertype chain of an operator; the rank bounds its length. -/
def chainOf (C : Catalogue) (o : Nat) : List Nat :=
  chainAux C (C.rank o) o

/-- Operator-level subtyping: o is a subtype of p when o's supertype chain
reaches p (reflexively). -/
def subOper (C : Catalogue) (o p : Nat) : Bool :=
  decide (p ∈ chainOf C o)

theorem mem_chainAux_rank (C : Catalogue) :
    ∀ f o p, p ∈ chainAux C f o → p = o ∨ C.rank p < C.rank o := by
  intro f
  induction f with
  | zero =>
    intro o p hp
    simp [chainAux] at hp
    exact Or.inl hp
  | succ n ih =>
    intro o p hp
    simp only [chainAux, List.mem_cons] at hp
    rcases hp with h | h
    · exact Or.inl h
    · cases hs : C.supertype o with
      | none => rw [hs] at h; simp at h
      | some q =>
        rw [hs] at h
        have hq := C.rank_decreases o q hs
        rcases ih q p h with rfl | hlt
        · exact Or.inr hq
        · exact Or.inr (Nat.lt_trans hlt hq)

theorem subOper_antisymm (C : Catalogue) (a b : Nat)
    (hab : subOper C a b = true) (hba : subOper C b a = true) : a = b := by
  have h1 : b ∈ chainOf C a := of_decide_eq_true hab
  have h2 : a ∈ chainOf C b := of_decide_eq_true hba
  rcases mem_chainAux_rank C (C.rank a) a b h1 with rfl | hlt1
  · rfl
  · rcases mem_chainAux_rank C (C.rank b) b a h2 with rfl | hlt2
    · rfl
    · omega

/-- Modelled from the spec: when two lower bounds for the same variable
meet, the bound is tightened to the comparable supremum of the two, and a
pair of incomparable bounds is a SubtypeMismatch (here: none). -/
def joinOp (C : Catalogue) (a b : Nat) : Option Nat :=
  if subOper C a b then some b
  else if subOper C b a then some a
  else none

theorem joinOp_comm (C : Catalogue) (a b : Nat) : joinOp C a b = joinOp C b a := by
  unfold joinOp
  by_cases hab : subOper C a b = true <;> by_cases hba : subOper C b a = true <;>
    simp [hab, hba]
  exact subOper_antisymm C b a hba hab

mutual
/-- Modelled from the spec: a type instance is a compound operation (an
operator identity applied to an ordered list of parameter instances), a
function instance (a distinguished binary compound, contravariant on the
left and covariant on the right), or a type variable carrying its
identity and a wildcard flag.  Constraint sets attached to variables are
modelled separately, as lists of alternative patterns.  The parameter
list is a mutually defined list type so that all operations on instances
are structurally recursive. -/
inductive Ty where
  | base : Nat → TyList → Ty
  | fn : Ty → Ty → Ty
  | tvar : Nat → Bool → Ty
/-- Ordered parameter lists of type instances. -/
inductive TyList where
  | nil : TyList
  | cons : Ty → TyList → TyList
end

mutual
def Ty.beq : Ty → Ty → Bool
  | .base o ps, .base p qs => o == p && TyList.beq ps qs
  | .fn d c, .fn e k => Ty.beq d e && Ty.beq c k
  | .tvar i v, .tvar j w => i == j && v == w
  | _, _ => false
def TyList.beq : TyList → TyList → Bool
  | .nil, .nil => true
  | .cons a as, .cons b bs => Ty.beq a b && TyList.beq as bs
  | _, _ => false
end

mutual
theorem tyBeq_iff : ∀ a b : Ty, Ty.beq a b = true ↔ a = b
  | .base o ps, .base p qs => by
    have ih := tyListBeq_iff ps qs
    simp [Ty.beq, ih]
  | .base _ _, .fn _ _ => by simp [Ty.beq]
  | .base _ _, .tvar _ _ => by simp [Ty.beq]
  | .fn _ _, .base _ _ => by simp [Ty.beq]
  | .fn d c, .fn e k => by
    have ih1 := tyBeq_iff d e
    have ih2 := tyBeq_iff c k
    simp [Ty.beq, ih1, ih2]
  | .fn _ _, .tvar _ _ => by simp [Ty.beq]
  | .tvar _ _, .base _ _ => by simp [Ty.beq]
  | .tvar _ _, .fn _ _ => by simp [Ty.beq]
  | .tvar i v, .tvar j w => by simp [Ty.beq]
theorem tyListBeq_iff : ∀ a b : TyList, TyList.beq a b = true ↔ a = b
  | .nil, .nil => by simp [TyList.beq]
  | .nil, .cons _ _ => by simp [TyList.beq]
  | .cons _ _, .nil => by simp [TyList.beq]
  | .cons a as, .cons b bs => by
    have ih1 := tyBeq_iff a b
    have ih2 := tyListBeq_iff as bs
    simp [TyList.beq, ih1, ih2]
end

instance : DecidableEq Ty :=
  fun a b => decidable_of_iff (Ty.beq a b = true) (tyBeq_iff a b)

instance : DecidableEq TyList :=
  fun a b => decidable_of_iff (TyList.beq a b = true) (tyListBeq_iff a b)

/-- Builds a parameter list from an ordinary list of instances. -/
def tyL : List Ty → TyList
  | [] => .nil
  | t :: ts => .cons t (tyL ts)

/-- Kleene conjunction of three-valued subtyping verdicts: a definite
failure dominates, otherwise indeterminacy propagates. -/
def andK : Option Bool → Option Bool → Option Bool
  | some false, _ => some false
  | _, some false => some false
  | some true, some true => some true
  | _, _ => none

mutual
/-- Modelled from the spec: the three-valued subtype relation, with a
direction flag so that the contravariant function domain stays
structurally recursive: subtypeD C false a b decides whether a is a
subtype of b, and subtypeD C true a b decides whether b is a subtype of
a.  A wildcard variable satisfies the check at its position; a
non-wildcard variable makes the verdict indeterminate unless both sides
are that same variable; compound instances require identical operators
and compare parameters covariantly; arity-0 operators compare along the
declared supertype chain; a function instance is contravariant in its
domain and covariant in its codomain; every instance is a subtype of the
synthetic Top operator when it is enabled. -/
def subtypeD (C : Catalogue) : Bool → Ty → Ty → Option Bool
  | _, .tvar i v, .tvar j w =>
    if v || w then some true else if i = j then some true else none
  | _, .tvar _ v, _ => if v then some true else none
  | _, _, .tvar _ w => if w then some true else none
  | fl, .base o ps, .base p qs =>
    if fl then
      if (C.top == some o) && TyList.beq ps .nil then some true
      else if p = o then subtypeListD C fl ps qs
      else if TyList.beq ps .nil && TyList.beq qs .nil then some (subOper C p o)
      else some false
    else
      if (C.top == some p) && TyList.beq qs .nil then some true
      else if o = p then subtypeListD C fl ps qs
      else if TyList.beq ps .nil && TyList.beq qs .nil then some (subOper C o p)
      else some false
  | fl, .fn d c, .fn e k => andK (subtypeD C (!fl) d e) (subtypeD C fl c k)
  | fl, .fn _ _, .base p qs =>
    if fl then some false
    else if (C.top == some p) && TyList.beq qs .nil then some true
    else some false
  | fl, .base o ps, .fn _ _ =>
    if fl then
      if (C.top == some o) && TyList.beq ps .nil then some true else some false
    else some false
def subtypeListD (C : Catalogue) : Bool → TyList → TyList → Option Bool
  | _, .nil, .nil => some true
  | fl, .cons a as, .cons b bs =>
    andK (subtypeD C fl a b) (subtypeListD C fl as bs)
  | _, _, _ => some false
end

mutual
theorem subtypeD_swap :
    ∀ (C : Catalogue) (fl : Bool) (a b : Ty),
      subtypeD C fl a b = subtypeD C (!fl) b a
  | C, fl, .tvar i v, .tvar j w => by
    have hij : (j = i) = (i = j) := propext eq_comm
    cases fl <;> simp only [subtypeD, Bool.or_comm, hij]
  | C, fl, .tvar _ _, .base _ _ => by cases fl <;> simp [subtypeD]
  | C, fl, .tvar _ _, .fn _ _ => by cases fl <;> simp [subtypeD]
  | C, fl, .base _ _, .tvar _ _ => by cases fl <;> simp [subtypeD]
  | C, fl, .fn _ _, .tvar _ _ => by cases fl <;> simp [subtypeD]
  | C, fl, .base o ps, .base p qs => by
    have ih := subtypeListD_swap C fl ps qs
    cases fl <;> simp [subtypeD, ih, and_comm]
  | C, fl, .fn d c, .fn e k => by
    cases fl
    · have ih1 := subtypeD_swap C true d e
      have ih2 := subtypeD_swap C false c k
      simp at ih1 ih2
      simp [subtypeD, ih1, ih2]
    · have ih1 := subtypeD_swap C false d e
      have ih2 := subtypeD_swap C true c k
      simp at ih1 ih2
      simp [subtypeD, ih1, ih2]
  | C, fl, .fn _ _, .base _ _ => by cases fl <;> simp [subtypeD]
  | C, fl, .base _ _, .fn _ _ => by cases fl <;> simp [subtypeD]
theorem subtypeListD_swap :
    ∀ (C : Catalogue) (fl : Bool) (as bs : TyList),
      subtypeListD C fl as bs = subtypeListD C (!fl) bs as
  | C, fl, .nil, .nil => by cases fl <;> simp [subtypeListD]
  | C, fl, .nil, .cons _ _ => by cases fl <;> simp [subtypeListD]
  | C, fl, .cons _ _, .nil => by cases fl <;> simp [subtypeListD]
  | C, fl, .cons a as, .cons b bs => by
    cases fl
    · have ih1 := subtypeD_swap C false a b
      have ih2 := subtypeListD_swap C false as bs
      simp at ih1 ih2
      simp [subtypeListD, ih1, ih2]
    · have ih1 := subtypeD_swap C true a b
      have ih2 := subtypeListD_swap C true as bs
      simp at ih1 ih2
      simp [subtypeListD, ih1, ih2]
end

/-- The three-valued subtype relation between two instances. -/
def subtypeOf (C : Catalogue) (a b : Ty) : Option Bool :=
  subtypeD C false a b

theorem subtypeOf_fn_fn (C : Catalogue) (d c e k : Ty) :
    subtypeOf C (Ty.fn d c) (Ty.fn e k) = andK (subtypeOf C e d) (subtypeOf C c k) := by
  show andK (subtypeD C true d e) (subtypeD C false c k) = _
  rw [subtypeD_swap C true d e]
  rfl

/-- A concrete catalogue for the chain Sub <: Basic <: Super together
with unrelated operators: 0 = Super, 1 = Basic, 2 = Sub, 3 = Other,
4 = A, 5 = F (arity 1), 6 = G (arity 1), 7 = F2 (arity 2); Top disabled. -/
def chainCat : Catalogue where
  supertype := fun o => if o = 1 then some 0 else if o = 2 then some 1 else none
  rank := fun o => if o = 1 then 1 else if o = 2 then 2 else 0
  rank_decreases := by
    intro o p h
    simp only [] at h ⊢
    split at h
    next h1 =>
      injection h with h2
      subst h1
      subst h2
      decide
    next h1 =>
      split at h
      next h2 =>
        injection h with h3
        subst h2
        subst h3
        decide
      next => exact absurd h (by simp)
  top := none

def tySuper : Ty := Ty.base 0 .nil

def tyBasic : Ty := Ty.base 1 .nil

def tySub : Ty := Ty.base 2 .nil

def tyOther : Ty := Ty.base 3 .nil

def tyA : Ty := Ty.base 4 .nil

def tyF1 (x : Ty) : Ty := Ty.base 5 (tyL [x])

def tyG1 (x : Ty) : Ty := Ty.base 6 (tyL [x])

def tyF2 (x y : Ty) : Ty := Ty.base 7 (tyL [x, y])

/-- Modelled from the spec: applying both arguments of the schema
x ** x ** r.  Each argument contributes a lower bound for the variable
x; the bounds combine through joinOp; if they are incomparable the
application fails with SubtypeMismatch (none), otherwise the schema's
codomain r is returned. -/
def applyTwice (C : Catalogue) (r : Ty) (a b : Nat) : Option Ty :=
  (joinOp C a b).map (fun _ => r)

mutual
/-- Modelled from the spec: the conservative comparison used when a
constraint's alternatives are minimised at construction time.  Unlike
the subtype relation of a pure query, a wildcard here only matches
another wildcard, so that alternatives differing in where concrete
bounds sit are never conflated. -/
def subLeD (C : Catalogue) : Bool → Ty → Ty → Bool
  | _, .tvar i v, .tvar j w => (v && w) || (!v && !w && (i == j))
  | _, .tvar _ _, _ => false
  | _, _, .tvar _ _ => false
  | fl, .base o ps, .base p qs =>
    if o = p then subLeListD C fl ps qs
    else if TyList.beq ps .nil && TyList.beq qs .nil then
      (if fl then subOper C p o else subOper C o p)
    else false
  | fl, .fn d c, .fn e k => subLeD C (!fl) d e && subLeD C fl c k
  | _, _, _ => false
def subLeListD (C : Catalogue) : Bool → TyList → TyList → Bool
  | _, .nil, .nil => true
  | fl, .cons a as, .cons b bs => subLeD C fl a b && subLeListD C fl as bs
  | _, _, _ => false
end

/-- Conservative subtype comparison between constraint alternatives. -/
def subLe (C : Catalogue) (a b : Ty) : Bool :=
  subLeD C false a b

/-- Two alternatives that are conservatively subtype-comparable in both
directions. -/
def altEquiv (C : Catalogue) (a b : Ty) : Bool :=
  subLe C a b && subLe C b a

/-- Alternative b sits conservatively strictly below alternative a. -/
def altStrictBelow (C : Catalogue) (b a : Ty) : Bool :=
  subLe C b a && !(subLe C a b)

def minimizeGo (C : Catalogue) (acc : List Ty) : List Ty → List Ty
  | [] => acc.reverse
  | a :: rest =>
    if acc.any (fun b => altEquiv C a b)
        || (acc ++ rest).any (fun b => altStrictBelow C b a) then
      minimizeGo C acc rest
    else
      minimizeGo C (a :: acc) rest

/-- Modelled from the spec: when a constraint is built, alternatives
that are subtype-comparable collapse to the single dominant (most
specific) alternative; an alternative equivalent to an already kept one,
or strictly dominated from below by any other alternative, is dropped. -/
def minimizeAlts (C : Catalogue) (alts : List Ty) : List Ty :=
  minimizeGo C [] alts

/-- Modelled from the spec: once binding information arrives for a
constrained variable, an alternative is discarded as soon as it cannot
structurally match the variable's current bound, that is, as soon as the
subtype query of the bound against it is definitely false. -/
def pruneAlts (C : Catalogue) (bound : Ty) (alts : List Ty) : List Ty :=
  alts.filter (fun a => subtypeOf C bound a != some false)

mutual
/-- Identities of the variables occurring in an instance, in order. -/
def varsTy : Ty → List Nat
  | .base _ ps => varsTyList ps
  | .fn d c => varsTy d ++ varsTy c
  | .tvar i _ => [i]
def varsTyList : TyList → List Nat
  | .nil => []
  | .cons t ts => varsTy t ++ varsTyList ts
end

mutual
/-- Renames every variable by adding a fixed offset to its identity;
this models the hygienic fresh instantiation of a schema, which never
shares variables between call sites. -/
def renameTy (k : Nat) : Ty → Ty
  | .base o ps => .base o (renameTyList k ps)
  | .fn d c => .fn (renameTy k d) (renameTy k c)
  | .tvar i w => .tvar (i + k) w
def renameTyList (k : Nat) : TyList → TyList
  | .nil => .nil
  | .cons t ts => .cons (renameTy k t) (renameTyList k ts)
end

/-- Discriminates function instances, as type.is_function does. -/
def isFunction : Ty → Bool
  | .fn _ _ => true
  | _ => false

theorem isFunction_renameTy (k : Nat) (t : Ty) :
    isFunction (renameTy k t) = isFunction t := by
  cases t <;> simp [renameTy, isFunction]

/-- Modelled from the spec: a type schema, already generated: the
identities of the generator's declared parameters, the body instance
built from them, and the constraint clauses, each one an owning variable
paired with the list of alternative patterns it is constrained to. -/
structure SchemaModel where
  params : List Nat
  body : Ty
  constraints : List (Nat × List Ty)

/-- Every variable identity a schema's constraints mention: the owning
variable of each clause and all variables inside its alternatives. -/
def mentionedVars (s : SchemaModel) : List Nat :=
  s.constraints.flatMap (fun c => c.1 :: c.2.flatMap varsTy)

/-- The typing errors of the engine. -/
inductive TErr where
  | functionApplication : TErr
  | subtypeMismatch : TErr
  | constraintViolation : TErr
  | constrainFreeVariable : TErr
deriving DecidableEq

/-- The result of a fallible engine operation. -/
inductive TRes where
  | ok : Ty → TRes
  | err : TErr → TRes
deriving DecidableEq

/-- Modelled from the spec: instantiating a schema first checks, before
any unification is attempted, that every variable mentioned by a
constraint is part of the schema's own quantified signature, that is,
occurs in the generated body instance; otherwise it fails with
ConstrainFreeVariable. -/
def instantiateS (s : SchemaModel) : TRes :=
  if (mentionedVars s).all (fun v => decide (v ∈ varsTy s.body)) then
    TRes.ok s.body
  else
    TRes.err TErr.constrainFreeVariable

/-- Fresh non-wildcard variables, one per parameter position. -/
def freshParams (fresh : Nat) : TyList → TyList
  | .nil => .nil
  | .cons _ ts => .cons (Ty.tvar fresh false) (freshParams (fresh + 1) ts)

/-- Modelled from the spec: when a single constraint alternative fixes a
variable's binding, only the alternative's operator and arity are taken
over: each parameter position is filled with a fresh variable, never
with the concrete base-type leaf the alternative supplies, since the
alternative is an upper bound rather than a proof of exact identity. -/
def outerShape (fresh : Nat) : Ty → Ty
  | .base o ps => .base o (freshParams fresh ps)
  | t => t

/-- The operator of a compound instance. -/
def opOf : Ty → Option Nat
  | .base o _ => some o
  | _ => none

/-- The first parameter of a compound instance. -/
def firstParam : Ty → Option Ty
  | .base _ (.cons p _) => some p
  | _ => none

/-- Discriminates variable instances. -/
def isVarTy : Ty → Bool
  | .tvar _ _ => true
  | _ => false

/-- The schema of the free-variable test: parameters x y z (0 1 2),
body x ** x, constraint y @ x, z: the owning variable y does not occur
in the body. -/
def fSchemaM : SchemaModel :=
  ⟨[0, 1, 2], Ty.fn (Ty.tvar 0 false) (Ty.tvar 0 false),
   [(1, [Ty.tvar 0 false, Ty.tvar 2 false])]⟩

/-- The schema of the free-variable test: parameters x y z (0 1 2),
body x ** x, constraint x @ y, z: the alternatives mention variables
that do not occur in the body. -/
def gSchemaM : SchemaModel :=
  ⟨[0, 1, 2], Ty.fn (Ty.tvar 0 false) (Ty.tvar 0 false),
   [(0, [Ty.tvar 1 false, Ty.tvar 2 false])]⟩

/-- A well-formed schema: its only constraint mentions only the body
variable. -/
def okSchemaM : SchemaModel :=
  ⟨[0], Ty.fn (Ty.tvar 0 false) (Ty.tvar 0 false), [(0, [Ty.tvar 0 false])]⟩

/-- The catalogue of the canon configuration: 0 = A, 1 = B with
supertype A, 2 = F (arity 2), and the synthetic Top operator 9 enabled. -/
def canonCat : Catalogue where
  supertype := fun o => if o = 1 then some 0 else none
  rank := fun o => if o = 1 then 1 else 0
  rank_decreases := by
    intro o p h
    simp only [] at h ⊢
    split at h
    next h1 =>
      injection h with h2
      subst h1
      subst h2
      decide
    next => exact absurd h (by simp)
  top := some 9

mutual
/-- Modelled from the spec: the instances a canonical seed member gives
rise to.  At an arity-0 position the occupant may be replaced by any
declared operator below it or by Top when enabled; at a compound the
operator is kept and every parameter position is expanded recursively. -/
def variantsTy (C : Catalogue) (basics : List Nat) : Ty → List Ty
  | .base o .nil =>
    ((basics.filter (fun p => subOper C p o)).map (fun p => Ty.base p .nil))
      ++ (match C.top with
          | some t => [Ty.base t .nil]
          | none => [])
  | .base o ps => (variantsTyList C basics ps).map (fun qs => Ty.base o qs)
  | t => [t]
def variantsTyList (C : Catalogue) (basics : List Nat) : TyList → List TyList
  | .nil => [TyList.nil]
  | .cons t ts =>
    (variantsTy C basics t).flatMap
      (fun v => (variantsTyList C basics ts).map (fun vs => TyList.cons v vs))
end

/-- Modelled from the spec: the canon of a seed set is the closure of
all instances obtained by expanding every parameter position of every
seed member, deduplicated; it is computed once and never mutated. -/
def canonOf (C : Catalogue) (basics : List Nat) (seed : List Ty) : List Ty :=
  (seed.flatMap (variantsTy C basics)).dedup

/-- Strict subtyping between concrete canonical instances. -/
def lttB (C : Catalogue) (a b : Ty) : Bool :=
  (subtypeOf C a b == some true) && !(decide (a = b))

/-- The direct (covering) subtypes of x within the canon: strict
subtypes with no canon member strictly between. -/
def subtypesC (C : Catalogue) (canon : List Ty) (x : Ty) : List Ty :=
  canon.filter (fun y => lttB C y x && canon.all (fun z => !(lttB C y z && lttB C z x)))

/-- The direct (covering) supertypes of y within the canon. -/
def supertypesC (C : Catalogue) (canon : List Ty) (y : Ty) : List Ty :=
  canon.filter (fun x => lttB C y x && canon.all (fun z => !(lttB C y z && lttB C z x)))

theorem mem_subtypesC (C : Catalogue) (canon : List Ty) (x y : Ty) :
    y ∈ subtypesC C canon x ↔
      y ∈ canon ∧ (lttB C y x && canon.all (fun z => !(lttB C y z && lttB C z x))) = true := by
  simp [subtypesC, List.mem_filter]

theorem mem_supertypesC (C : Catalogue) (canon : List Ty) (x y : Ty) :
    x ∈ supertypesC C canon y ↔
      x ∈ canon ∧ (lttB C y x && canon.all (fun z => !(lttB C y z && lttB C z x))) = true := by
  simp [supertypesC, List.mem_filter]

def cTyA : Ty := Ty.base 0 .nil

def cTyB : Ty := Ty.base 1 .nil

def cTyTop : Ty := Ty.base 9 .nil

def cTyF (x y : Ty) : Ty := Ty.base 2 (tyL [x, y])

/-- The seed of the canon test configuration. -/
def canonSeed : List Ty := [cTyA, cTyF cTyA cTyB]

/-- The declared arity-0 operators of the canon configuration. -/
def canonBasics : List Nat := [0, 1]

/-- The canon computed from the seed. -/
def canonComputed : List Ty := canonOf canonCat canonBasics canonSeed

/-- The exact canon documented for this configuration. -/
def canonExpected : List Ty :=
  [cTyTop, cTyA, cTyB, cTyF cTyA cTyB, cTyF cTyB cTyB, cTyF cTyA cTyTop,
   cTyF cTyB cTyTop, cTyF cTyTop cTyB, cTyF cTyTop cTyTop]

/-- The full enumeration of A, B, Top at both parameter positions of F,
together with the three arity-0 instances. -/
def fullEnumF : List Ty :=
  [cTyA, cTyB, cTyTop]
    ++ ([cTyA, cTyB, cTyTop].flatMap
        (fun x => [cTyA, cTyB, cTyTop].map (fun y => cTyF x y)))

/-- Embeds Definition from expr.py: a name and the declared type. -/
structure DefinitionE where
  name : Nat
  type : Ty

/-- The offset used to rename variables when a definition's type is
instantiated at a use site. -/
def freshOffset : Nat := 1000

/-- Embeds the expression nodes of expr.py that carry an instantiated
type: an Input or a Transformation. -/
inductive ExprE where
  | input : Ty → ExprE
  | transf : Ty → ExprE
deriving DecidableEq

/-- The result of constructing an expression node: the node, or the
RuntimeError its constructor raises. -/
inductive ERes where
  | ok : ExprE → ERes
  | runtimeError : ERes
deriving DecidableEq

/-- Embeds Input.init from expr.py: the definition's type is
instantiated; a RuntimeError is raised when the instantiated type is a
function type, and when any type variable occurs in it. -/
def mkInput (d : DefinitionE) : ERes :=
  if isFunction (renameTy freshOffset d.type) then ERes.runtimeError
  else if !(varsTy (renameTy freshOffset d.type)).isEmpty then ERes.runtimeError
  else ERes.ok (ExprE.input (renameTy freshOffset d.type))

/-- Embeds Transformation.init from expr.py: a RuntimeError is raised
when the instantiated type is not a function type. -/
def mkTransformation (d : DefinitionE) : ERes :=
  if isFunction (renameTy freshOffset d.type) then
    ERes.ok (ExprE.transf (renameTy freshOffset d.type))
  else
    ERes.runtimeError

/-- Embeds Definition.instance from expr.py: a Transformation when the
definition's type is a function, an Input otherwise. -/
def instanceD (d : DefinitionE) : ERes :=
  if isFunction d.type then mkTransformation d else mkInput d

/-- Embeds the constructor arguments of flow.py Sequence: each is an
ellipsis or an item. -/
inductive RawStep (T : Type) where
  | ell : RawStep T
  | val : T → RawStep T
deriving DecidableEq

/-- Embeds Sequence.init from flow.py: the arguments are walked with a
pending skip flag; an ellipsis only raises the flag, an item is appended
together with the flag (which is then reset), and the pending flag is
appended once more at the end. -/
def buildSeq {T : Type} : List (RawStep T) → Bool → List T × List Bool
  | [], skip => ([], [skip])
  | .ell :: rest, _ => buildSeq rest true
  | .val t :: rest, skip =>
    let p := buildSeq rest false
    (t :: p.1, skip :: p.2)

/-- Embeds Sequence.iter from flow.py: zipping skips, items and the tail
of skips yields one (skip-before, item, skip-after) triple per item. -/
def seqTriples {T : Type} (its : List T) (sks : List Bool) : List (Bool × T × Bool) :=
  (sks.zip (its.zip sks.tail)).map (fun p => (p.1, p.2.1, p.2.2))

/-- The tokens of the product fragment of the type grammar. -/
inductive Tok where
  | atom : Nat → Tok
  | star : Tok
  | lp : Tok
  | rp : Tok
deriving DecidableEq

/-- The binary product constructor, as operator 8. -/
def prodT (l r : Ty) : Ty := Ty.base 8 (tyL [l, r])

/-- Modelled from the spec: a recursive-descent parse of the product
fragment of the type grammar.  An atomic term is an operator name or a
parenthesised type; a product chains atomic terms with the star sign
and, as the source documents, groups to the right, so A * A * A parses
as A * (A * A).  The flag selects the level: true parses a product,
false an atomic term.  Returns the parse and the remaining tokens. -/
def parseTy : Nat → Bool → List Tok → Option (Ty × List Tok)
  | 0, _, _ => none
  | n + 1, true, ts =>
    match parseTy n false ts with
    | some (l, Tok.star :: ts2) =>
      (parseTy n true ts2).map (fun p => (prodT l p.1, p.2))
    | some (l, ts1) => some (l, ts1)
    | none => none
  | n + 1, false, ts =>
    match ts with
    | Tok.atom a :: ts1 => some (Ty.base a .nil, ts1)
    | Tok.lp :: ts1 =>
      match parseTy n true ts1 with
      | some (t, Tok.rp :: ts2) => some (t, ts2)
      | _ => none
    | _ => none

/-- Parses a complete type text: all tokens must be consumed. -/
def parseTypeText (ts : List Tok) : Option Ty :=
  match parseTy (2 * ts.length + 2) true ts with
  | some (t, []) => some t
  | _ => none

theorem buildSeq_snd_length {T : Type} :
    ∀ (raws : List (RawStep T)) (b : Bool),
      (buildSeq raws b).2.length = (buildSeq raws b).1.length + 1
  | [], _ => rfl
  | .ell :: rest, _ => buildSeq_snd_length rest true
  | .val t :: rest, b => by
    simp [buildSeq, buildSeq_snd_length rest false]

theorem buildSeq_collapse {T : Type} :
    ∀ (l r : List (RawStep T)) (b : Bool),
      buildSeq (l ++ RawStep.ell :: RawStep.ell :: r) b
        = buildSeq (l ++ RawStep.ell :: r) b
  | [], _, _ => by simp [buildSeq]
  | .ell :: l, r, _ => by
    simpa [buildSeq] using buildSeq_collapse l r true
  | .val t :: l, r, b => by
    simp [buildSeq, buildSeq_collapse l r false]

theorem buildSeq_items_mem {T : Type} :
    ∀ (raws : List (RawStep T)) (b : Bool) (t : T),
      t ∈ (buildSeq raws b).1 → RawStep.val t ∈ raws
  | [], _, t => by simp [buildSeq]
  | .ell :: rest, _, t => by
    intro h
    exact List.mem_cons_of_mem _ (buildSeq_items_mem rest true t h)
  | .val u :: rest, _, t => by
    intro h
    simp only [buildSeq, List.mem_cons] at h
    rcases h with rfl | h
    · exact List.mem_cons_self _ _
    · exact List.mem_cons_of_mem _ (buildSeq_items_mem rest false t h)

theorem seqTriples_length {T : Type} (its : List T) (sks : List Bool) :
    (seqTriples its sks).length = min sks.length (min its.length (sks.length - 1)) := by
  simp [seqTriples, List.length_zip, List.length_tail]

/-- C1: applying arguments to the curried schema x ** x ** Other is
order-independent in outcome: for any catalogue and any two argument
operators, the two application orders yield the same final result type
or the same failure; concretely, in the chain Sub <: Basic, applying Sub
then Basic and Basic then Sub both give Other, while Basic and the
unrelated Other fail (SubtypeMismatch) in either order. -/
theorem subtype_application_order_irrelevant :
    (∀ (C : Catalogue) (r : Ty) (a b : Nat), applyTwice C r a b = applyTwice C r b a)
    ∧ applyTwice chainCat tyOther 2 1 = some tyOther
    ∧ applyTwice chainCat tyOther 1 2 = some tyOther
    ∧ applyTwice chainCat tyOther 1 3 = none
    ∧ applyTwice chainCat tyOther 3 1 = none := by
  refine ⟨?_, by decide, by decide, by decide, by decide⟩
  intro C r a b
  unfold applyTwice
  rw [joinOp_comm]

/-- C2: function subtyping is contravariant in the domain and covariant
in the codomain: f <= g holds iff g.domain <= f.domain and
f.codomain <= g.codomain, for any catalogue and any instances; with the
chain Sub <: Basic <: Super, Basic ** Basic <= Sub ** Basic and
Basic ** Basic <= Basic ** Super hold while
Basic ** Basic <= Super ** Basic and Basic ** Basic <= Basic ** Sub
fail. -/
theorem function_subtyping_contra_co :
    (∀ (C : Catalogue) (d c e k : Ty),
        subtypeOf C (Ty.fn d c) (Ty.fn e k) = some true ↔
          (subtypeOf C e d = some true ∧ subtypeOf C c k = some true))
    ∧ subtypeOf chainCat (Ty.fn tyBasic tyBasic) (Ty.fn tySub tyBasic) = some true
    ∧ subtypeOf chainCat (Ty.fn tyBasic tyBasic) (Ty.fn tyBasic tySuper) = some true
    ∧ subtypeOf chainCat (Ty.fn tyBasic tyBasic) (Ty.fn tySuper tyBasic) = some false
    ∧ subtypeOf chainCat (Ty.fn tyBasic tyBasic) (Ty.fn tyBasic tySub) = some false := by
  refine ⟨?_, by decide, by decide, by decide, by decide⟩
  intro C d c e k
  rw [subtypeOf_fn_fn]
  cases h1 : subtypeOf C e d with
  | none =>
    cases h2 : subtypeOf C c k with
    | none => simp [andK]
    | some b2 => cases b2 <;> simp [andK]
  | some b1 =>
    cases b1 with
    | false => simp [andK]
    | true =>
      cases h2 : subtypeOf C c k with
      | none => simp [andK]
      | some b2 => cases b2 <;> simp [andK]

/-- C3: constraint narrowing: the alternatives F(A), G(A), pruned by the
bound F(A), leave exactly the one alternative F(A) (and likewise the
test's variant with an open parameter); building a constraint from two
subtype-comparable alternatives such as F(wildcard, wildcard) twice, or
Super with Basic, collapses to the single dominant alternative, while
the alternatives F(A, wildcard) and F(wildcard, A) are both kept even
though the plain subtype query relates them. -/
theorem constraint_narrowing :
    pruneAlts chainCat (tyF1 tyA) [tyF1 tyA, tyG1 tyA] = [tyF1 tyA]
    ∧ pruneAlts chainCat (tyF1 tyA)
        [tyG1 (Ty.tvar 0 false), tyF1 (Ty.tvar 0 false)] = [tyF1 (Ty.tvar 0 false)]
    ∧ (minimizeAlts chainCat
        [tyF2 (Ty.tvar 0 true) (Ty.tvar 1 true),
         tyF2 (Ty.tvar 2 true) (Ty.tvar 3 true)]).length = 1
    ∧ (minimizeAlts chainCat
        [tyF2 tyA (Ty.tvar 0 true), tyF2 (Ty.tvar 1 true) tyA]).length = 2
    ∧ minimizeAlts chainCat [tySuper, tyBasic] = [tyBasic]
    ∧ subtypeOf chainCat (tyF2 tyA (Ty.tvar 0 true))
        (tyF2 (Ty.tvar 1 true) tyA) = some true :=
  ⟨by decide, by decide, by decide, by decide, by decide, by decide⟩

/-- C4 counterexample: the canon of the seed A, F(A,B) is not the full
enumeration over A, B, Top at both parameter positions of F: the member
F(A, A) of that enumeration is absent from the computed canon (the
second position, seeded by B, only ranges over B and Top). -/
theorem canon_full_enumeration_cex :
    cTyF cTyA cTyA ∈ fullEnumF ∧ cTyF cTyA cTyA ∉ canonComputed :=
  ⟨by decide, by decide⟩

/-- C4 (amended): for the seed A, F(A,B) with B <: A and Top enabled,
the computed canon is exactly the nine documented instances: Top, A, B,
and F with first parameter among A, B, Top and second parameter among
B, Top; for every pair in the canon, membership in subtypesC mirrors
membership in supertypesC; both give only the direct covering relation,
as the two spot checks against the documented covering tree show. -/
theorem canon_exact_set_and_mirror :
    (canonComputed.all (fun t => decide (t ∈ canonExpected))
      && canonExpected.all (fun t => decide (t ∈ canonComputed))) = true
    ∧ (∀ x y : Ty, x ∈ canonComputed → y ∈ canonComputed →
        (y ∈ subtypesC canonCat canonComputed x ↔
          x ∈ supertypesC canonCat canonComputed y))
    ∧ subtypesC canonCat canonComputed cTyTop = [cTyA, cTyF cTyTop cTyTop]
    ∧ supertypesC canonCat canonComputed (cTyF cTyB cTyB)
        = [cTyF cTyA cTyB, cTyF cTyB cTyTop] := by
  refine ⟨by decide, ?_, by decide, by decide⟩
  intro x y hx hy
  rw [mem_subtypesC, mem_supertypesC]
  constructor
  · rintro ⟨_, h⟩
    exact ⟨hx, h⟩
  · rintro ⟨_, h⟩
    exact ⟨hy, h⟩

theorem canon_mirror_witness :
    cTyTop ∈ canonComputed ∧ cTyA ∈ canonComputed ∧
      (cTyA ∈ subtypesC canonCat canonComputed cTyTop ↔
        cTyTop ∈ supertypesC canonCat canonComputed cTyA) :=
  ⟨by decide, by decide,
   canon_exact_set_and_mirror.2.1 cTyTop cTyA (by decide) (by decide)⟩

/-- C5: binding a variable through a constraint's compound alternative
F(A) fixes only the operator and the arity: the resulting shape has
operator F, its parameter is still a type variable, and the result is
not the concrete F(A) itself. -/
theorem constraint_binding_outer_shape :
    opOf (outerShape 50 (tyF1 tyA)) = some 5
    ∧ (∃ p, firstParam (outerShape 50 (tyF1 tyA)) = some p ∧ isVarTy p = true)
    ∧ outerShape 50 (tyF1 tyA) ≠ tyF1 tyA :=
  ⟨by decide, ⟨Ty.tvar 50 false, by decide, by decide⟩, by decide⟩

/-- C6: the subtype comparison is three-valued: a non-wildcard variable
against any compound instance is indeterminate in either direction, and
each of the four documented function comparisons with a free variable in
domain or codomain, on the left or on the right, yields the
indeterminate verdict. -/
theorem variable_comparison_indeterminate :
    (∀ (i b : Nat) (ps : TyList),
        subtypeOf chainCat (Ty.tvar i false) (Ty.base b ps) = none
        ∧ subtypeOf chainCat (Ty.base b ps) (Ty.tvar i false) = none)
    ∧ subtypeOf chainCat (Ty.fn (Ty.tvar 100 false) tyBasic)
        (Ty.fn tySub tyBasic) = none
    ∧ subtypeOf chainCat (Ty.fn tyBasic (Ty.tvar 100 false))
        (Ty.fn tyBasic tySuper) = none
    ∧ subtypeOf chainCat (Ty.fn tyBasic tyBasic)
        (Ty.fn (Ty.tvar 100 false) tyBasic) = none
    ∧ subtypeOf chainCat (Ty.fn tyBasic tyBasic)
        (Ty.fn tyBasic (Ty.tvar 100 false)) = none := by
  refine ⟨?_, by decide, by decide, by decide, by decide⟩
  intro i b ps
  exact ⟨rfl, rfl⟩

/-- C7 counterexample: instantiating the schema with parameters x, y, z,
body x ** x and constraint y @ x, z raises ConstrainFreeVariable even
though every variable its constraint mentions is in the schema's own
parameter set; so the error is not raised exactly when a constraint
mentions a variable absent from the parameter set. -/
theorem constrain_free_parameter_set_cex :
    instantiateS fSchemaM = TRes.err TErr.constrainFreeVariable
    ∧ (mentionedVars fSchemaM).all (fun v => decide (v ∈ fSchemaM.params)) = true :=
  ⟨by decide, by decide⟩

/-- C7 (amended): ConstrainFreeVariable is raised, at instantiation time
and before any unification, exactly when a schema's constraint mentions
a variable that does not occur in the schema's own generated type: both
when the owning variable is foreign (schema f) and when a foreign
variable appears only inside a constraint's alternatives (schema g). -/
theorem constrain_free_variable_exact :
    (∀ s : SchemaModel,
        instantiateS s = TRes.err TErr.constrainFreeVariable ↔
          ∃ v ∈ mentionedVars s, v ∉ varsTy s.body)
    ∧ instantiateS fSchemaM = TRes.err TErr.constrainFreeVariable
    ∧ instantiateS gSchemaM = TRes.err TErr.constrainFreeVariable
    ∧ instantiateS okSchemaM
        = TRes.ok (Ty.fn (Ty.tvar 0 false) (Ty.tvar 0 false)) := by
  refine ⟨?_, by decide, by decide, by decide⟩
  intro s
  unfold instantiateS
  split
  next h =>
    simp only [List.all_eq_true, decide_eq_true_eq] at h
    constructor
    · intro hc
      exact absurd hc (by simp)
    · rintro ⟨v, hv, hnot⟩
      exact absurd (h v hv) hnot
  next h =>
    simp only [List.all_eq_true, decide_eq_true_eq] at h
    push_neg at h
    obtain ⟨v, hv, hnot⟩ := h
    exact ⟨fun _ => ⟨v, hv, hnot⟩, fun _ => rfl⟩

/-- C8: the token text A * A * A parses to the same instance as
A * (A * A) (right grouping), that instance is A * (A * A); the text
(A * A) * A parses to (A * A) * A, which is a distinct instance from
A * (A * A) under structural equality. -/
theorem product_parse_right_grouping :
    parseTypeText [Tok.atom 4, Tok.star, Tok.atom 4, Tok.star, Tok.atom 4]
      = parseTypeText [Tok.atom 4, Tok.star, Tok.lp, Tok.atom 4, Tok.star,
          Tok.atom 4, Tok.rp]
    ∧ parseTypeText [Tok.atom 4, Tok.star, Tok.atom 4, Tok.star, Tok.atom 4]
        = some (prodT tyA (prodT tyA tyA))
    ∧ parseTypeText [Tok.lp, Tok.atom 4, Tok.star, Tok.atom 4, Tok.rp,
          Tok.star, Tok.atom 4]
        = some (prodT (prodT tyA tyA) tyA)
    ∧ prodT (prodT tyA tyA) tyA ≠ prodT tyA (prodT tyA tyA) :=
  ⟨by decide, by decide, by decide, by decide⟩

/-- C9: constructing an Input raises RuntimeError exactly when the
definition's instantiated type is a function type or contains a type
variable; a successfully constructed Input therefore carries a
non-function type without variables; Definition.instance builds a
Transformation exactly when the definition's type is a function, and
otherwise returns the result of the Input constructor. -/
theorem input_construction_checks :
    ∀ d : DefinitionE,
      (mkInput d = ERes.runtimeError ↔
        (isFunction (renameTy freshOffset d.type) = true
          ∨ varsTy (renameTy freshOffset d.type) ≠ []))
      ∧ (∀ t, mkInput d = ERes.ok (ExprE.input t) →
          isFunction t = false ∧ varsTy t = [])
      ∧ ((∃ t, instanceD d = ERes.ok (ExprE.transf t)) ↔
          isFunction d.type = true)
      ∧ (isFunction d.type = false → instanceD d = mkInput d) := by
  intro d
  refine ⟨?_, ?_, ?_, ?_⟩
  · cases hf : isFunction (renameTy freshOffset d.type) with
    | true => simp [mkInput, hf]
    | false =>
      cases he : (varsTy (renameTy freshOffset d.type)).isEmpty with
      | true =>
        have hnil : varsTy (renameTy freshOffset d.type) = [] := by
          simpa using he
        simp [mkInput, hf, he, hnil]
      | false =>
        have hne : varsTy (renameTy freshOffset d.type) ≠ [] := by
          intro hnil
          rw [hnil] at he
          simp at he
        simp [mkInput, hf, he, hne]
  · intro t ht
    cases hf : isFunction (renameTy freshOffset d.type) with
    | true => simp [mkInput, hf] at ht
    | false =>
      cases he : (varsTy (renameTy freshOffset d.type)).isEmpty with
      | true =>
        have hnil : varsTy (renameTy freshOffset d.type) = [] := by
          simpa using he
        have heq : renameTy freshOffset d.type = t := by
          simpa [mkInput, hf, he] using ht
        subst heq
        exact ⟨hf, hnil⟩
      | false => simp [mkInput, hf, he] at ht
  · cases hf : isFunction d.type with
    | true =>
      have hr : isFunction (renameTy freshOffset d.type) = true := by
        rw [isFunction_renameTy]
        exact hf
      simp [instanceD, mkTransformation, hf, hr]
    | false =>
      have hr : isFunction (renameTy freshOffset d.type) = false := by
        rw [isFunction_renameTy]
        exact hf
      simp only [instanceD, hf]
      constructor
      · rintro ⟨t, ht⟩
        cases he : (varsTy (renameTy freshOffset d.type)).isEmpty with
        | true => simp [mkInput, hr, he] at ht
        | false => simp [mkInput, hr, he] at ht
      · intro hc
        simp at hc
  · intro h
    simp [instanceD, h]

theorem input_construction_checks_witness :
    mkInput ⟨0, tyA⟩ = ERes.ok (ExprE.input tyA)
    ∧ (isFunction tyA = false ∧ varsTy tyA = [])
    ∧ (isFunction (DefinitionE.mk 0 tyA).type = false
        ∧ instanceD ⟨0, tyA⟩ = mkInput ⟨0, tyA⟩) :=
  ⟨by decide, (input_construction_checks ⟨0, tyA⟩).2.1 tyA (by decide),
   by decide, (input_construction_checks ⟨0, tyA⟩).2.2.2 (by decide)⟩

/-- C10: every constructed Sequence satisfies: skips has exactly one
entry more than items; any run of consecutive ellipses collapses (two
adjacent ellipses build the same Sequence as one); no ellipsis is stored
as an item, every stored item coming from an item argument; iterating
yields exactly one (skip-before, item, skip-after) triple per stored
item. -/
theorem sequence_skip_invariants :
    (∀ (T : Type) (raws : List (RawStep T)) (b : Bool),
        (buildSeq raws b).2.length = (buildSeq raws b).1.length + 1)
    ∧ (∀ (T : Type) (l r : List (RawStep T)) (b : Bool),
        buildSeq (l ++ RawStep.ell :: RawStep.ell :: r) b
          = buildSeq (l ++ RawStep.ell :: r) b)
    ∧ (∀ (T : Type) (raws : List (RawStep T)) (b : Bool) (t : T),
        t ∈ (buildSeq raws b).1 → RawStep.val t ∈ raws)
    ∧ (∀ (T : Type) (raws : List (RawStep T)) (b : Bool),
        (seqTriples (buildSeq raws b).1 (buildSeq raws b).2).length
          = (buildSeq raws b).1.length) := by
  refine ⟨?_, ?_, ?_, ?_⟩
  · intro T raws b
    exact buildSeq_snd_length raws b
  · intro T l r b
    exact buildSeq_collapse l r b
  · intro T raws b t
    exact buildSeq_items_mem raws b t
  · intro T raws b
    rw [seqTriples_length, buildSeq_snd_length]
    omega

theorem sequence_skip_invariants_witness :
    (3 : Nat) ∈ (buildSeq [RawStep.val 9, RawStep.ell, RawStep.val 3] false).1
    ∧ RawStep.val (3 : Nat) ∈ [RawStep.val 9, RawStep.ell, RawStep.val 3] :=
  ⟨by decide,
   sequence_skip_invariants.2.2.1 Nat
     [RawStep.val 9, RawStep.ell, RawStep.val 3] false 3 (by decide)⟩
